import Mathlib

/-!
Verification of the cache/session core of the `youtube_summarizer_telegram_bot`
repository, against its natural-language specification.

The two components under study are
  * `src/services/cache.py` — `CacheEntry` and `TranscriptCache`, an in-memory
    TTL/LRU cache mapping video ids to transcripts with an optional cached
    summary, and
  * `src/services/session.py` — `UserSession` and the module-level session
    store, a per-chat session map with inactivity expiry and bounded history.

Both Python classes hold their state in a `dict`.  A Python `dict` preserves
insertion order, updates a present key in place (keeping its position), and
appends an absent key at the end; we embed it as an association list with
exactly those operations (`lookupKey`, `insertKey`, `eraseKey`), so that
iteration order — which the LRU eviction's `min(...)` call observes — is
modelled faithfully.  Wall-clock time (`time.time()`) is embedded as an
explicit `now : Nat` argument threaded through every operation, and each
mutating method becomes a state-passing function returning the new store.
-/

namespace BotCore

/-! ## Python dict embedding -/

/-- First-match lookup in an ordered association list (Python `d.get(k)`). -/
def lookupKey {K V : Type} [DecidableEq K] : List (K × V) → K → Option V
  | [], _ => none
  | p :: rest, k => if p.1 = k then some p.2 else lookupKey rest k

/-- Python `d[k] = v`: update in place if the key is present (keeping its
position in iteration order), otherwise append at the end. -/
def insertKey {K V : Type} [DecidableEq K] (s : List (K × V)) (k : K) (v : V) :
    List (K × V) :=
  if (lookupKey s k).isSome then
    s.map (fun p => if p.1 = k then (k, v) else p)
  else
    s ++ [(k, v)]

/-- Python `del d[k]`: remove the key, preserving the order of the rest. -/
def eraseKey {K V : Type} [DecidableEq K] (s : List (K × V)) (k : K) :
    List (K × V) :=
  s.filter (fun p => p.1 ≠ k)

/-- A real Python dict never holds two pairs with the same key. -/
def NodupKeys {K V : Type} (s : List (K × V)) : Prop :=
  (s.map Prod.fst).Nodup

/-! ## services/cache.py -/

/-- Python `_TTL_SECONDS = 24 * 60 * 60`. -/
def TTL_SECONDS : Nat := 24 * 60 * 60

/-- Python `_MAX_ENTRIES = 200`. -/
def MAX_ENTRIES : Nat := 200

/-- The `CacheEntry` dataclass of `services/cache.py`. -/
structure CacheEntry where
  transcript : String
  language_code : String
  summary : Option String
  created_at : Nat
  last_accessed : Nat
  access_count : Nat
deriving DecidableEq, Repr

/-- Python `CacheEntry.is_expired`: `(time.time() - self.created_at) > _TTL_SECONDS`. -/
def CacheEntry.is_expired (e : CacheEntry) (now : Nat) : Bool :=
  TTL_SECONDS < now - e.created_at

/-- Python `CacheEntry.touch`: refresh `last_accessed` and bump `access_count`. -/
def CacheEntry.touch (e : CacheEntry) (now : Nat) : CacheEntry :=
  { e with last_accessed := now, access_count := e.access_count + 1 }

/-- The `_store : dict[str, CacheEntry]` of `TranscriptCache`. -/
abbrev Store := List (String × CacheEntry)

namespace TranscriptCache

/-- Python `TranscriptCache.get`: return the entry when present and not expired
(touching it first); delete and miss when expired; miss when absent. -/
def get (s : Store) (now : Nat) (video_id : String) :
    Option CacheEntry × Store :=
  match lookupKey s video_id with
  | none => (none, s)
  | some entry =>
    if entry.is_expired now then
      (none, eraseKey s video_id)
    else
      let e := entry.touch now
      (some e, insertKey s video_id e)

/-- The first pass of `_evict_if_needed`: remove every expired entry. -/
def removeExpired (s : Store) (now : Nat) : Store :=
  s.filter (fun p => !(p.2.is_expired now))

/-- Python `min(iterable, key=f)` keeps the first minimum: the running best is
replaced only on a strictly smaller key value. -/
def minPairAux (best : String × CacheEntry) :
    List (String × CacheEntry) → String × CacheEntry
  | [] => best
  | q :: rest =>
    if q.2.last_accessed < best.2.last_accessed then minPairAux q rest
    else minPairAux best rest

/-- Python `min(self._store, key=lambda k: self._store[k].last_accessed)` paired with
the entry it selects (`none` on an empty store, where Python would raise). -/
def lruPair : Store → Option (String × CacheEntry)
  | [] => none
  | p :: rest => some (minPairAux p rest)

/-- Python `TranscriptCache._evict_if_needed`: drop expired entries, then evict the
least-recently-accessed entry when still at or over capacity. -/
def evict_if_needed (s : Store) (now : Nat) : Store :=
  if MAX_ENTRIES ≤ (removeExpired s now).length then
    match lruPair (removeExpired s now) with
    | some p => eraseKey (removeExpired s now) p.1
    | none => removeExpired s now
  else removeExpired s now

/-- Python `TranscriptCache.set`: run the maintenance pass, then store a fresh entry
for `video_id`, replacing any existing one. -/
def set (s : Store) (now : Nat) (video_id transcript language_code : String) :
    CacheEntry × Store :=
  let s1 := evict_if_needed s now
  let entry : CacheEntry :=
    { transcript := transcript, language_code := language_code,
      summary := none, created_at := now, last_accessed := now,
      access_count := 0 }
  (entry, insertKey s1 video_id entry)

/-- Python `TranscriptCache.set_summary`: attach a summary to an existing entry;
silently do nothing when the entry is absent. -/
def set_summary (s : Store) (video_id summary : String) : Store :=
  match lookupKey s video_id with
  | none => s
  | some entry => insertKey s video_id { entry with summary := some summary }

end TranscriptCache

/-! ## services/session.py -/

/-- Python `_SESSION_TTL_SECONDS = 2 * 60 * 60`. -/
def SESSION_TTL_SECONDS : Nat := 2 * 60 * 60

/-- Python `_MAX_HISTORY_MESSAGES = 20`. -/
def MAX_HISTORY_MESSAGES : Nat := 20

/-- The `UserSession` dataclass of `services/session.py`.  A history item
`{"role": r, "content": c}` is embedded as the pair `(r, c)`. -/
structure UserSession where
  video_id : Option String
  transcript : Option String
  summary : Option String
  language : String
  history : List (String × String)
  created_at : Nat
  last_active : Nat
deriving DecidableEq, Repr

/-- A freshly constructed `UserSession()` with all dataclass defaults. -/
def UserSession.fresh (now : Nat) : UserSession :=
  { video_id := none, transcript := none, summary := none,
    language := "English", history := [], created_at := now,
    last_active := now }

/-- Python `UserSession.touch`: refresh `last_active`. -/
def UserSession.touch (s : UserSession) (now : Nat) : UserSession :=
  { s with last_active := now }

/-- Python `UserSession.is_expired`: `(time.time() - self.last_active) > _SESSION_TTL_SECONDS`. -/
def UserSession.is_expired (s : UserSession) (now : Nat) : Bool :=
  SESSION_TTL_SECONDS < now - s.last_active

/-- Python `UserSession.add_history`: append a message, then trim to the most recent
`_MAX_HISTORY_MESSAGES` entries (`self.history[-20:]`) when over the limit. -/
def UserSession.add_history (s : UserSession) (role content : String) :
    UserSession :=
  let h := s.history ++ [(role, content)]
  { s with
    history :=
      if MAX_HISTORY_MESSAGES < h.length then
        h.drop (h.length - MAX_HISTORY_MESSAGES)
      else h }

/-- Python `UserSession.reset`: clear the video context and history, then touch. -/
def UserSession.reset (s : UserSession) (now : Nat) : UserSession :=
  { s with
    video_id := none, transcript := none, summary := none,
    history := [], last_active := now }

/-- The module-level `_sessions : dict[int, UserSession]`. -/
abbrev SessionStore := List (Int × UserSession)

/-- Python `get_session`: return the stored session after touching it when it is
present and live; otherwise store and return a fresh one. -/
def get_session (ss : SessionStore) (now : Nat) (chat_id : Int) :
    UserSession × SessionStore :=
  match lookupKey ss chat_id with
  | none =>
    let s := UserSession.fresh now
    (s, insertKey ss chat_id s)
  | some session =>
    if session.is_expired now then
      let s := UserSession.fresh now
      (s, insertKey ss chat_id s)
    else
      let s := session.touch now
      (s, insertKey ss chat_id s)

/-- Python `update_video`: fetch the session via `get_session`, then overwrite the
video context, clear the history, and touch. -/
def update_video (ss : SessionStore) (now : Nat) (chat_id : Int)
    (video_id transcript summary : String) : SessionStore :=
  let r := get_session ss now chat_id
  let s :=
    { r.1 with
      video_id := some video_id, transcript := some transcript,
      summary := some summary, history := [], last_active := now }
  insertKey r.2 chat_id s

/-- Python `update_language`: update the preferred language on the live session. -/
def update_language (ss : SessionStore) (now : Nat) (chat_id : Int)
    (language : String) : SessionStore :=
  let r := get_session ss now chat_id
  insertKey r.2 chat_id { r.1 with language := language }

/-- Python `append_history`: delegate to `add_history` on the live session. -/
def append_history (ss : SessionStore) (now : Nat) (chat_id : Int)
    (role content : String) : SessionStore :=
  let r := get_session ss now chat_id
  insertKey r.2 chat_id (r.1.add_history role content)

/-- Python `has_video`: true iff a live session exists with a transcript loaded.
Note it reads `_sessions` directly and does not create or touch anything. -/
def has_video (ss : SessionStore) (now : Nat) (chat_id : Int) : Bool :=
  match lookupKey ss chat_id with
  | none => false
  | some session =>
    if session.is_expired now then false else session.transcript.isSome

/-- Python `clear_session`: reset in place when the chat id is present (expiry is not
consulted), otherwise store a fresh session. -/
def clear_session (ss : SessionStore) (now : Nat) (chat_id : Int) :
    SessionStore :=
  match lookupKey ss chat_id with
  | some session => insertKey ss chat_id (session.reset now)
  | none => insertKey ss chat_id (UserSession.fresh now)

/-- Python `cleanup_expired`: drop every expired session, returning the count. -/
def cleanup_expired (ss : SessionStore) (now : Nat) : Nat × SessionStore :=
  ((ss.filter (fun p => p.2.is_expired now)).length,
   ss.filter (fun p => !(p.2.is_expired now)))

/-- Python `active_session_count`: number of stored sessions that are not expired. -/
def active_session_count (ss : SessionStore) (now : Nat) : Nat :=
  (ss.filter (fun p => !(p.2.is_expired now))).length

/-! ## Lemmas about the dict embedding -/

section DictLemmas

variable {K V : Type} [DecidableEq K]

theorem lookupKey_append_of_none {s : List (K × V)} {k : K}
    (h : lookupKey s k = none) (t : List (K × V)) :
    lookupKey (s ++ t) k = lookupKey t k := by
  induction s with
  | nil => simp [lookupKey]
  | cons p rest ih =>
    rw [lookupKey] at h
    by_cases hp : p.1 = k
    · simp [hp] at h
    · rw [if_neg hp] at h
      simpa [lookupKey, hp] using ih h

theorem lookupKey_append_of_some {s : List (K × V)} {k : K} {v : V}
    (h : lookupKey s k = some v) (t : List (K × V)) :
    lookupKey (s ++ t) k = some v := by
  induction s with
  | nil => simp [lookupKey] at h
  | cons p rest ih =>
    rw [lookupKey] at h
    by_cases hp : p.1 = k
    · rw [if_pos hp] at h
      simp [lookupKey, hp, h]
    · rw [if_neg hp] at h
      simpa [lookupKey, hp] using ih h

theorem lookupKey_map_update {s : List (K × V)} {k : K} (v : V) :
    lookupKey (s.map (fun p => if p.1 = k then (k, v) else p)) k
      = if (lookupKey s k).isSome then some v else none := by
  induction s with
  | nil => simp [lookupKey]
  | cons p rest ih =>
    by_cases hp : p.1 = k
    · simp [lookupKey, hp]
    · simp [lookupKey, hp, ih]

theorem lookupKey_insertKey_self (s : List (K × V)) (k : K) (v : V) :
    lookupKey (insertKey s k v) k = some v := by
  unfold insertKey
  by_cases h : (lookupKey s k).isSome
  · rw [if_pos h, lookupKey_map_update, if_pos h]
  · rw [if_neg h]
    rw [Option.not_isSome_iff_eq_none] at h
    rw [lookupKey_append_of_none h]
    simp [lookupKey]

theorem lookupKey_insertKey_ne (s : List (K × V)) {k k' : K} (v : V)
    (hne : k' ≠ k) : lookupKey (insertKey s k v) k' = lookupKey s k' := by
  have hkk' : ¬(k = k') := fun h => hne h.symm
  unfold insertKey
  by_cases h : (lookupKey s k).isSome
  · rw [if_pos h]
    clear h
    induction s with
    | nil => simp
    | cons p rest ih =>
      by_cases hp : p.1 = k
      · simp [lookupKey, hp, hkk', ih]
      · simp [lookupKey, hp, ih]
  · rw [if_neg h]
    cases h' : lookupKey s k' with
    | none => rw [lookupKey_append_of_none h']; simp [lookupKey, hkk']
    | some w => rw [lookupKey_append_of_some h']

theorem lookupKey_eq_none_iff {s : List (K × V)} {k : K} :
    lookupKey s k = none ↔ ∀ p ∈ s, p.1 ≠ k := by
  induction s with
  | nil => simp [lookupKey]
  | cons p rest ih =>
    by_cases hp : p.1 = k
    · simp [lookupKey, hp]
    · simp [lookupKey, hp, ih]

theorem mem_of_lookupKey_eq_some {s : List (K × V)} {k : K} {v : V}
    (h : lookupKey s k = some v) : (k, v) ∈ s := by
  induction s with
  | nil => simp [lookupKey] at h
  | cons p rest ih =>
    rw [lookupKey] at h
    by_cases hp : p.1 = k
    · rw [if_pos hp] at h
      have hpv : p = (k, v) := by
        calc p = (p.1, p.2) := rfl
          _ = (k, v) := by rw [hp, Option.some_inj.mp h]
      rw [← hpv]
      exact List.mem_cons_self p rest
    · rw [if_neg hp] at h
      exact List.mem_cons_of_mem p (ih h)

theorem lookupKey_eq_some_of_mem {s : List (K × V)} {k : K} {v : V}
    (hnd : NodupKeys s) (hm : (k, v) ∈ s) : lookupKey s k = some v := by
  induction s with
  | nil => simp at hm
  | cons p rest ih =>
    rw [NodupKeys, List.map_cons, List.nodup_cons] at hnd
    rcases List.mem_cons.mp hm with rfl | hm'
    · simp [lookupKey]
    · have hp : p.1 ≠ k := by
        intro hk
        exact hnd.1 (hk ▸ List.mem_map_of_mem Prod.fst hm')
      rw [lookupKey, if_neg hp]
      exact ih hnd.2 hm'

theorem lookupKey_eraseKey_self (s : List (K × V)) (k : K) :
    lookupKey (eraseKey s k) k = none := by
  rw [lookupKey_eq_none_iff]
  intro p hp
  have := List.of_mem_filter hp
  simpa using this

theorem lookupKey_filter_of_none {s : List (K × V)} {k : K}
    (q : K × V → Bool) (h : lookupKey s k = none) :
    lookupKey (s.filter q) k = none := by
  rw [lookupKey_eq_none_iff] at h ⊢
  exact fun p hp => h p (List.mem_of_mem_filter hp)

theorem lookupKey_filter_of_dropped {s : List (K × V)} {k : K} {v : V}
    {q : K × V → Bool} (hnd : NodupKeys s) (h : lookupKey s k = some v)
    (hq : q (k, v) = false) : lookupKey (s.filter q) k = none := by
  rw [lookupKey_eq_none_iff]
  intro p hp hk
  have hmem : p ∈ s := List.mem_of_mem_filter hp
  have hmem' : (p.1, p.2) ∈ s := by rw [Prod.mk.eta]; exact hmem
  have h2 : lookupKey s p.1 = some p.2 := lookupKey_eq_some_of_mem hnd hmem'
  rw [hk, h] at h2
  have hpv : p = (k, v) := by
    calc p = (p.1, p.2) := rfl
      _ = (k, v) := by rw [hk, Option.some_inj.mp h2]
  rw [hpv] at hp
  have hqt := List.of_mem_filter hp
  rw [hq] at hqt
  exact Bool.false_ne_true hqt

theorem length_insertKey_of_some {s : List (K × V)} {k : K} (v : V)
    (h : (lookupKey s k).isSome) : (insertKey s k v).length = s.length := by
  rw [insertKey, if_pos h, List.length_map]

theorem length_insertKey_le (s : List (K × V)) (k : K) (v : V) :
    (insertKey s k v).length ≤ s.length + 1 := by
  unfold insertKey
  by_cases h : (lookupKey s k).isSome
  · rw [if_pos h, List.length_map]
    exact Nat.le_succ _
  · rw [if_neg h, List.length_append]
    simp

theorem length_filter_lt_of_mem {α : Type} {q : α → Bool} {l : List α} {a : α}
    (ha : a ∈ l) (hqa : q a = false) : (l.filter q).length < l.length := by
  induction l with
  | nil => simp at ha
  | cons b rest ih =>
    rcases List.mem_cons.mp ha with rfl | ha'
    · rw [List.filter_cons, hqa]
      simp only [List.length_cons]
      exact Nat.lt_succ_of_le (List.length_filter_le q rest)
    · rw [List.filter_cons]
      cases hb : q b
      · simp only [List.length_cons]
        exact Nat.lt_succ_of_lt (ih ha')
      · simp only [List.length_cons]
        exact Nat.succ_lt_succ (ih ha')

theorem length_eraseKey_of_mem {s : List (K × V)} {k : K} {v : V}
    (hnd : NodupKeys s) (hm : (k, v) ∈ s) :
    (eraseKey s k).length + 1 = s.length := by
  induction s with
  | nil => simp at hm
  | cons p rest ih =>
    rw [NodupKeys, List.map_cons, List.nodup_cons] at hnd
    by_cases hp : p.1 = k
    · have h1 : eraseKey (p :: rest) k = rest := by
        rw [eraseKey, List.filter_cons, if_neg (by simp [hp]),
          List.filter_eq_self]
        intro q hq
        have hqk : q.1 ≠ k := by
          intro hqk
          apply hnd.1
          rw [hp, ← hqk]
          exact List.mem_map_of_mem Prod.fst hq
        simp [hqk]
      rw [h1, List.length_cons]
    · have hm' : (k, v) ∈ rest := by
        rcases List.mem_cons.mp hm with heq | hmm
        · exact absurd (congrArg Prod.fst heq).symm hp
        · exact hmm
      have h2 : eraseKey (p :: rest) k = p :: eraseKey rest k := by
        rw [eraseKey, List.filter_cons, if_pos (by simp [hp])]
        rfl
      rw [h2, List.length_cons, List.length_cons, ← ih hnd.2 hm']

end DictLemmas

theorem NodupKeys.filter {K V : Type} {s : List (K × V)} (hnd : NodupKeys s)
    (q : K × V → Bool) : NodupKeys (s.filter q) :=
  List.Nodup.sublist (List.Sublist.map Prod.fst (List.filter_sublist s)) hnd

/-! ## Lemmas about the cache -/

namespace TranscriptCache

/-- The pair selected by `minPairAux` is one of the candidates. -/
theorem minPairAux_mem (b : String × CacheEntry)
    (l : List (String × CacheEntry)) : minPairAux b l ∈ b :: l := by
  induction l generalizing b with
  | nil => simp [minPairAux]
  | cons q rest ih =>
    rw [minPairAux]
    by_cases h : q.2.last_accessed < b.2.last_accessed
    · rw [if_pos h]
      rcases List.mem_cons.mp (ih q) with h1 | h1
      · rw [h1]; exact List.mem_cons_of_mem b (List.mem_cons_self q rest)
      · exact List.mem_cons_of_mem b (List.mem_cons_of_mem q h1)
    · rw [if_neg h]
      rcases List.mem_cons.mp (ih b) with h1 | h1
      · rw [h1]; exact List.mem_cons_self b _
      · exact List.mem_cons_of_mem b (List.mem_cons_of_mem q h1)

/-- The pair selected by `minPairAux` has the minimal `last_accessed` among
all candidates. -/
theorem minPairAux_le (b : String × CacheEntry)
    (l : List (String × CacheEntry)) :
    ∀ q ∈ b :: l, (minPairAux b l).2.last_accessed ≤ q.2.last_accessed := by
  induction l generalizing b with
  | nil =>
    intro q hq
    rcases List.mem_cons.mp hq with rfl | h
    · rw [minPairAux]
    · simp at h
  | cons r rest ih =>
    intro q hq
    rw [minPairAux]
    by_cases h : r.2.last_accessed < b.2.last_accessed
    · rw [if_pos h]
      rcases List.mem_cons.mp hq with rfl | h1
      · exact Nat.le_of_lt
          (Nat.lt_of_le_of_lt (ih r r (List.mem_cons_self r rest)) h)
      · exact ih r q h1
    · rw [if_neg h]
      rcases List.mem_cons.mp hq with rfl | h1
      · exact ih q q (List.mem_cons_self q rest)
      · rcases List.mem_cons.mp h1 with rfl | h2
        · exact Nat.le_trans (ih b b (List.mem_cons_self b rest))
            (Nat.le_of_not_lt h)
        · exact ih b q (List.mem_cons_of_mem b h2)

/-- The maintenance pass always leaves strictly fewer than `MAX_ENTRIES`
entries, provided the store was within capacity beforehand. -/
theorem length_evict_if_needed_lt (s : Store) (now : Nat)
    (h : s.length ≤ MAX_ENTRIES) :
    (evict_if_needed s now).length < MAX_ENTRIES := by
  have hle : (removeExpired s now).length ≤ s.length :=
    List.length_filter_le _ s
  unfold evict_if_needed
  by_cases hcap : MAX_ENTRIES ≤ (removeExpired s now).length
  · rw [if_pos hcap]
    cases h1 : removeExpired s now with
    | nil => rw [h1] at hcap; simp [MAX_ENTRIES] at hcap
    | cons hd tl =>
      rw [lruPair]
      show (eraseKey (hd :: tl) (minPairAux hd tl).1).length < MAX_ENTRIES
      have hmem : minPairAux hd tl ∈ hd :: tl := minPairAux_mem hd tl
      have hlt : (eraseKey (hd :: tl) (minPairAux hd tl).1).length
          < (hd :: tl).length := by
        apply length_filter_lt_of_mem hmem
        simp
      have hcap2 : (hd :: tl).length ≤ MAX_ENTRIES := by
        rw [← h1]; exact Nat.le_trans hle h
      exact Nat.lt_of_lt_of_le hlt hcap2
  · rw [if_neg hcap]
    exact Nat.lt_of_not_le hcap

/-- Python `set` keeps the store within capacity. -/
theorem length_set_le (s : Store) (now : Nat) (v t l : String)
    (h : s.length ≤ MAX_ENTRIES) :
    ((set s now v t l).2).length ≤ MAX_ENTRIES := by
  have h1 := length_evict_if_needed_lt s now h
  simp only [set]
  exact Nat.le_trans (length_insertKey_le _ _ _) h1

/-- One `put` call: the time of the call followed by the `video_id`,
`transcript` and `language_code` arguments. -/
def SetOp : Type := Nat × String × String × String

/-- The store produced by a sequence of `put` calls starting from the empty
cache a fresh `TranscriptCache()` holds. -/
def runSets (ops : List SetOp) : Store :=
  ops.foldl (fun s op => (set s op.1 op.2.1 op.2.2.1 op.2.2.2).2) []

theorem runSets_go_le (ops : List SetOp) :
    ∀ s : Store, s.length ≤ MAX_ENTRIES →
      (ops.foldl (fun s op => (set s op.1 op.2.1 op.2.2.1 op.2.2.2).2)
        s).length ≤ MAX_ENTRIES := by
  induction ops with
  | nil => intro s h; simpa using h
  | cons op rest ih =>
    intro s h
    rw [List.foldl_cons]
    exact ih _ (length_set_le s op.1 op.2.1 op.2.2.1 op.2.2.2 h)

/-- When the store is still at or over capacity after the expiry pass, the
maintenance pass removes exactly one entry, one with minimal `last_accessed`. -/
theorem evict_if_needed_characterization (s : Store) (now : Nat)
    (hnd : NodupKeys s)
    (hcap : MAX_ENTRIES ≤ (removeExpired s now).length) :
    ∃ k e, lookupKey (removeExpired s now) k = some e ∧
      evict_if_needed s now = eraseKey (removeExpired s now) k ∧
      (evict_if_needed s now).length + 1 = (removeExpired s now).length ∧
      ∀ p ∈ removeExpired s now, e.last_accessed ≤ p.2.last_accessed := by
  have hnd1 : NodupKeys (removeExpired s now) := NodupKeys.filter hnd _
  cases h1 : removeExpired s now with
  | nil => rw [h1] at hcap; simp [MAX_ENTRIES] at hcap
  | cons hd tl =>
    rw [h1] at hnd1
    refine ⟨(minPairAux hd tl).1, (minPairAux hd tl).2, ?_, ?_, ?_, ?_⟩
    · apply lookupKey_eq_some_of_mem hnd1
      rw [Prod.mk.eta]
      exact minPairAux_mem hd tl
    · rw [evict_if_needed, h1, if_pos (h1 ▸ hcap), lruPair]
    · have h2 : evict_if_needed s now
          = eraseKey (hd :: tl) (minPairAux hd tl).1 := by
        rw [evict_if_needed, h1, if_pos (h1 ▸ hcap), lruPair]
      rw [h2]
      apply length_eraseKey_of_mem hnd1
      rw [Prod.mk.eta]
      exact minPairAux_mem hd tl
    · exact minPairAux_le hd tl

end TranscriptCache

/-- A concrete full store: `MAX_ENTRIES` distinct keys, all entries created at
time 0 and therefore alive at time 0. -/
def bigStore : Store :=
  (List.range MAX_ENTRIES).map
    (fun i => (String.mk (List.replicate i 'a'),
      { transcript := "t", language_code := "en", summary := none,
        created_at := 0, last_accessed := i, access_count := 0 }))

theorem bigStore_nodupKeys : NodupKeys bigStore := by
  rw [NodupKeys, bigStore, List.map_map]
  apply List.Nodup.map
  · intro i j hij
    simp only [Function.comp] at hij
    have h2 : List.replicate i 'a' = List.replicate j 'a' := by
      injection hij
    have h3 := congrArg List.length h2
    simpa using h3
  · exact List.nodup_range MAX_ENTRIES

theorem bigStore_removeExpired :
    TranscriptCache.removeExpired bigStore 0 = bigStore := by
  rw [TranscriptCache.removeExpired, List.filter_eq_self]
  intro p hp
  rw [bigStore] at hp
  rcases List.mem_map.mp hp with ⟨i, _, hi⟩
  rw [← hi]
  simp [CacheEntry.is_expired, TTL_SECONDS]

theorem bigStore_full :
    MAX_ENTRIES ≤ (TranscriptCache.removeExpired bigStore 0).length := by
  rw [bigStore_removeExpired, bigStore, List.length_map, List.length_range]

/-! ## Claim C1 -/

/-- C1 — Cache capacity invariant: for every sequence of `put`
(`TranscriptCache.set`) calls, the store never holds more than 200 entries
(first conjunct, starting from the empty store of a fresh cache); and whenever
the store size after the pre-put removal of expired entries is still at or
above 200, exactly one entry is evicted before the insertion — one whose
`last_accessed` timestamp is minimal among the surviving entries (second
conjunct, for any store with the duplicate-free keys a Python dict
guarantees). -/
theorem claim_C1_cache_capacity :
    (∀ ops : List TranscriptCache.SetOp,
      (TranscriptCache.runSets ops).length ≤ MAX_ENTRIES) ∧
    (∀ (s : Store) (now : Nat), NodupKeys s →
      MAX_ENTRIES ≤ (TranscriptCache.removeExpired s now).length →
      ∃ k e, lookupKey (TranscriptCache.removeExpired s now) k = some e ∧
        TranscriptCache.evict_if_needed s now
          = eraseKey (TranscriptCache.removeExpired s now) k ∧
        (TranscriptCache.evict_if_needed s now).length + 1
          = (TranscriptCache.removeExpired s now).length ∧
        ∀ p ∈ TranscriptCache.removeExpired s now,
          e.last_accessed ≤ p.2.last_accessed) := by
  constructor
  · intro ops
    exact TranscriptCache.runSets_go_le ops [] (by simp)
  · intro s now hnd hcap
    exact TranscriptCache.evict_if_needed_characterization s now hnd hcap

/-- Witness for C1: the capacity bound evaluated on a concrete one-`put`
sequence, and the single-LRU-eviction property applied to a concrete store
holding exactly 200 live entries. -/
theorem claim_C1_cache_capacity_witness :
    (TranscriptCache.runSets [(0, "v", "hello", "en")]).length ≤ MAX_ENTRIES ∧
    (∃ k e, lookupKey (TranscriptCache.removeExpired bigStore 0) k = some e ∧
      TranscriptCache.evict_if_needed bigStore 0
        = eraseKey (TranscriptCache.removeExpired bigStore 0) k ∧
      (TranscriptCache.evict_if_needed bigStore 0).length + 1
        = (TranscriptCache.removeExpired bigStore 0).length ∧
      ∀ p ∈ TranscriptCache.removeExpired bigStore 0,
        e.last_accessed ≤ p.2.last_accessed) :=
  ⟨claim_C1_cache_capacity.1 [(0, "v", "hello", "en")],
   claim_C1_cache_capacity.2 bigStore 0 bigStore_nodupKeys bigStore_full⟩

/-! ## Claim C3 -/

/-- C3 — `put` followed immediately by `get` (same clock value, so the entry
cannot have expired) returns an entry whose `transcript` is the stored
`raw_content`, whose `language_code` is the stored language, whose
`access_count` is exactly 1 (the single increment performed by the `get`),
and whose `last_accessed` was updated to the current time before returning;
the same entry is what the store then holds. -/
theorem claim_C3_put_then_get (s : Store) (now : Nat) (vid t lang : String) :
    (TranscriptCache.get ((TranscriptCache.set s now vid t lang).2) now
        vid).1
      = some { transcript := t, language_code := lang, summary := none,
               created_at := now, last_accessed := now, access_count := 1 } ∧
    lookupKey
        (TranscriptCache.get ((TranscriptCache.set s now vid t lang).2) now
          vid).2 vid
      = some { transcript := t, language_code := lang, summary := none,
               created_at := now, last_accessed := now, access_count := 1 } := by
  have hl : lookupKey ((TranscriptCache.set s now vid t lang).2) vid
      = some { transcript := t, language_code := lang, summary := none,
               created_at := now, last_accessed := now, access_count := 0 } := by
    simp only [TranscriptCache.set]
    exact lookupKey_insertKey_self _ _ _
  have hfresh : CacheEntry.is_expired
      { transcript := t, language_code := lang, summary := none,
        created_at := now, last_accessed := now, access_count := 0 } now
      = false := by
    simp [CacheEntry.is_expired]
  constructor
  · simp [TranscriptCache.get, hl, hfresh, CacheEntry.touch]
  · simp [TranscriptCache.get, hl, hfresh, CacheEntry.touch,
      lookupKey_insertKey_self]

/-! ## Claim C4 -/

/-- After both passes of `_evict_if_needed`, a key absent from the expiry
pass's result stays absent. -/
theorem lookupKey_evict_if_needed_none {s : Store} {now : Nat} {k : String}
    (h : lookupKey (TranscriptCache.removeExpired s now) k = none) :
    lookupKey (TranscriptCache.evict_if_needed s now) k = none := by
  rw [TranscriptCache.evict_if_needed]
  by_cases hcap :
      MAX_ENTRIES ≤ (TranscriptCache.removeExpired s now).length
  · rw [if_pos hcap]
    cases h1 :
        TranscriptCache.lruPair (TranscriptCache.removeExpired s now) with
    | none => exact h
    | some p => exact lookupKey_filter_of_none _ h
  · rw [if_neg hcap]
    exact h

/-- C4 — Cache TTL: an entry whose `created_at` lies more than 24 hours
before the current time — whatever its `access_count` and `last_accessed`
are — is a miss on the next `get`, which also deletes it from the store,
and is removed by the maintenance pass run at the start of the next `put`. -/
theorem claim_C4_cache_ttl (s : Store) (now : Nat) (vid : String)
    (e : CacheEntry) (hnd : NodupKeys s)
    (hmem : lookupKey s vid = some e)
    (hexp : e.created_at + TTL_SECONDS < now) :
    (TranscriptCache.get s now vid).1 = none ∧
    lookupKey (TranscriptCache.get s now vid).2 vid = none ∧
    lookupKey (TranscriptCache.evict_if_needed s now) vid = none := by
  have hexpb : e.is_expired now = true := by
    simp only [CacheEntry.is_expired, decide_eq_true_eq]
    omega
  refine ⟨?_, ?_, ?_⟩
  · simp only [TranscriptCache.get, hmem, hexpb]
    rfl
  · simp only [TranscriptCache.get, hmem, hexpb]
    exact lookupKey_eraseKey_self s vid
  · apply lookupKey_evict_if_needed_none
    apply lookupKey_filter_of_dropped hnd hmem
    rw [hexpb]
    rfl

/-- A concrete store holding one long-expired entry with a nonzero
`access_count` and `last_accessed`. -/
def staleStore : Store :=
  [("v", { transcript := "t", language_code := "en", summary := none,
           created_at := 0, last_accessed := 5, access_count := 7 })]

/-- Witness for C4 at `now = 86401`, one second past the 24-hour TTL. -/
theorem claim_C4_cache_ttl_witness :
    (NodupKeys staleStore ∧
     lookupKey staleStore "v"
       = some { transcript := "t", language_code := "en", summary := none,
                created_at := 0, last_accessed := 5, access_count := 7 } ∧
     (0 : Nat) + TTL_SECONDS < 86401) ∧
    ((TranscriptCache.get staleStore 86401 "v").1 = none ∧
     lookupKey (TranscriptCache.get staleStore 86401 "v").2 "v" = none ∧
     lookupKey (TranscriptCache.evict_if_needed staleStore 86401) "v"
       = none) :=
  ⟨⟨by simp [NodupKeys, staleStore], by decide, by decide⟩,
   claim_C4_cache_ttl staleStore 86401 "v"
     { transcript := "t", language_code := "en", summary := none,
       created_at := 0, last_accessed := 5, access_count := 7 }
     (by simp [NodupKeys, staleStore]) (by decide) (by decide)⟩

/-! ## Claim C5 -/

/-- C5 — total, raise-free behaviour on missing keys: `set_summary` for an
absent `content_id` is a no-op that leaves the store unchanged, and `get`
for an absent key returns the explicit not-found result `none` without
touching the store.  All operations of the embedding are total Lean
functions — the code has no raising path on a missing key: absence is
always the `None` result of `dict.get`. -/
theorem claim_C5_missing_key_no_raise (s : Store) (now : Nat)
    (vid sum : String) (h : lookupKey s vid = none) :
    TranscriptCache.set_summary s vid sum = s ∧
    (TranscriptCache.get s now vid).1 = none ∧
    (TranscriptCache.get s now vid).2 = s := by
  refine ⟨?_, ?_, ?_⟩ <;> simp [TranscriptCache.set_summary,
    TranscriptCache.get, h]

/-- Witness for C5 on the empty store. -/
theorem claim_C5_missing_key_no_raise_witness :
    lookupKey ([] : Store) "v" = none ∧
    (TranscriptCache.set_summary [] "v" "sum" = ([] : Store) ∧
     (TranscriptCache.get [] 3 "v").1 = none ∧
     (TranscriptCache.get [] 3 "v").2 = ([] : Store)) :=
  ⟨by decide, claim_C5_missing_key_no_raise [] 3 "v" "sum" (by decide)⟩

/-! ## Claim C2 -/

/-- C2 as frozen is false on the code: `set_summary` overwrites an existing
summary.  Concretely, for a store whose entry for `"v"` already carries the
cached summary `"A"`, `set_summary "v" "B"` leaves the entry holding `"B"`,
not the original `"A"`. -/
theorem claim_C2_counterexample :
    lookupKey
        (TranscriptCache.set_summary
          [("v", { transcript := "t", language_code := "en",
                   summary := some "A", created_at := 0, last_accessed := 0,
                   access_count := 0 })] "v" "B") "v"
      = some { transcript := "t", language_code := "en", summary := some "B",
               created_at := 0, last_accessed := 0, access_count := 0 } ∧
    (some "B" : Option String) ≠ some "A" := by
  constructor
  · decide
  · decide

/-- C2 (amended) — `set_summary` on an existing entry always assigns the
given summary: the last writer wins, and a previously cached summary is
overwritten rather than protected. -/
theorem claim_C2_summary_last_writer_wins (s : Store) (vid sum : String)
    (e : CacheEntry) (h : lookupKey s vid = some e) :
    lookupKey (TranscriptCache.set_summary s vid sum) vid
      = some { e with summary := some sum } := by
  simp only [TranscriptCache.set_summary, h]
  exact lookupKey_insertKey_self _ _ _

/-- A concrete store whose entry for `"v"` already carries summary `"A"`. -/
def summarizedStore : Store :=
  [("v", { transcript := "t", language_code := "en", summary := some "A",
           created_at := 0, last_accessed := 0, access_count := 0 })]

/-- Witness for the amended C2: overwriting the cached summary `"A"` of a
concrete entry with `"B"`. -/
theorem claim_C2_summary_last_writer_wins_witness :
    lookupKey summarizedStore "v"
      = some { transcript := "t", language_code := "en", summary := some "A",
               created_at := 0, last_accessed := 0, access_count := 0 } ∧
    lookupKey (TranscriptCache.set_summary summarizedStore "v" "B") "v"
      = some { transcript := "t", language_code := "en", summary := some "B",
               created_at := 0, last_accessed := 0,
               access_count := 0 } :=
  ⟨by decide,
   claim_C2_summary_last_writer_wins summarizedStore "v" "B"
     { transcript := "t", language_code := "en", summary := some "A",
       created_at := 0, last_accessed := 0, access_count := 0 }
     (by decide)⟩

/-! ## Claim C10 -/

/-- C10 — frame property of `set_summary`: for any entry present in the
store — expired or not, since `set_summary` consults no clock at all — the
operation assigns exactly the `summary` field, leaving `transcript`,
`language_code`, `created_at`, `last_accessed` and `access_count` untouched,
and performs no expiry check and no eviction: every other key maps to the
same entry as before and the store size is unchanged. -/
theorem claim_C10_set_summary_frame (s : Store) (vid sum : String)
    (e : CacheEntry) (h : lookupKey s vid = some e) :
    lookupKey (TranscriptCache.set_summary s vid sum) vid
      = some { transcript := e.transcript, language_code := e.language_code,
               summary := some sum, created_at := e.created_at,
               last_accessed := e.last_accessed,
               access_count := e.access_count } ∧
    (∀ k, k ≠ vid →
      lookupKey (TranscriptCache.set_summary s vid sum) k = lookupKey s k) ∧
    (TranscriptCache.set_summary s vid sum).length = s.length := by
  refine ⟨?_, ?_, ?_⟩
  · simp only [TranscriptCache.set_summary, h]
    exact lookupKey_insertKey_self _ _ _
  · intro k hk
    simp only [TranscriptCache.set_summary, h]
    exact lookupKey_insertKey_ne s _ hk
  · simp only [TranscriptCache.set_summary, h]
    apply length_insertKey_of_some
    rw [h]
    rfl

/-- Witness for C10 on a store holding a single expired entry (`created_at`
far in the past relative to any realistic clock), showing the summary is
attached and everything else is untouched. -/
theorem claim_C10_set_summary_frame_witness :
    lookupKey staleStore "v"
      = some { transcript := "t", language_code := "en", summary := none,
               created_at := 0, last_accessed := 5, access_count := 7 } ∧
    (lookupKey (TranscriptCache.set_summary staleStore "v" "S") "v"
       = some { transcript := "t", language_code := "en",
                summary := some "S", created_at := 0, last_accessed := 5,
                access_count := 7 } ∧
     (∀ k, k ≠ "v" →
       lookupKey (TranscriptCache.set_summary staleStore "v" "S") k
         = lookupKey staleStore k) ∧
     (TranscriptCache.set_summary staleStore "v" "S").length
       = staleStore.length) :=
  ⟨by decide,
   claim_C10_set_summary_frame staleStore "v" "S"
     { transcript := "t", language_code := "en", summary := none,
       created_at := 0, last_accessed := 5, access_count := 7 }
     (by decide)⟩

/-! ## Claim C6 -/

/-- C6 — Load-content atomicity: after `update_video`, the stored session's
`history` is empty and its `video_id` is the newly loaded identifier (first
conjunct, for any prior store state — so in particular for the state reached
after any earlier `update_video` and any appended turns); the second conjunct
spells out the two-sequential-loads scenario, with an arbitrary list of
turns appended between the two loads. -/
theorem claim_C6_load_content_atomicity :
    (∀ (ss : SessionStore) (now : Nat) (chat_id : Int) (vid t sum : String),
      ∃ s : UserSession,
        lookupKey (update_video ss now chat_id vid t sum) chat_id = some s ∧
        s.history = [] ∧ s.video_id = some vid) ∧
    (∀ (ss : SessionStore) (now1 tnow now2 : Nat) (chat_id : Int)
        (v1 t1 s1 v2 t2 s2 : String) (turns : List (String × String)),
      ∃ s : UserSession,
        lookupKey
          (update_video
            (turns.foldl
              (fun st m => append_history st tnow chat_id m.1 m.2)
              (update_video ss now1 chat_id v1 t1 s1))
            now2 chat_id v2 t2 s2) chat_id = some s ∧
        s.history = [] ∧ s.video_id = some v2) := by
  have main : ∀ (ss : SessionStore) (now : Nat) (chat_id : Int)
      (vid t sum : String),
      ∃ s : UserSession,
        lookupKey (update_video ss now chat_id vid t sum) chat_id = some s ∧
        s.history = [] ∧ s.video_id = some vid := by
    intro ss now chat_id vid t sum
    refine ⟨{ (get_session ss now chat_id).1 with
        video_id := some vid, transcript := some t, summary := some sum,
        history := [], last_active := now }, ?_, rfl, rfl⟩
    simp only [update_video]
    exact lookupKey_insertKey_self _ _ _
  exact ⟨main,
    fun ss now1 tnow now2 chat_id v1 t1 s1 v2 t2 s2 turns =>
      main _ now2 chat_id v2 t2 s2⟩

/-! ## Claim C7 -/

/-- C7 — Session TTL: when the stored session's `last_active` lies more than
2 hours before the current time, `has_video` reports `false` no matter what
content the session holds, and the next `get_session` returns — and stores —
a brand-new session with all default fields (no video, no transcript, no
summary, empty history, default language `"English"`). -/
theorem claim_C7_session_ttl (ss : SessionStore) (now : Nat) (chat_id : Int)
    (s : UserSession) (hs : lookupKey ss chat_id = some s)
    (hexp : s.last_active + SESSION_TTL_SECONDS < now) :
    has_video ss now chat_id = false ∧
    (get_session ss now chat_id).1
      = { video_id := none, transcript := none, summary := none,
          language := "English", history := [], created_at := now,
          last_active := now } ∧
    lookupKey (get_session ss now chat_id).2 chat_id
      = some { video_id := none, transcript := none, summary := none,
               language := "English", history := [], created_at := now,
               last_active := now } := by
  have hexpb : s.is_expired now = true := by
    simp only [UserSession.is_expired, decide_eq_true_eq]
    omega
  refine ⟨?_, ?_, ?_⟩
  · simp [has_video, hs, hexpb]
  · simp [get_session, hs, hexpb, UserSession.fresh]
  · simp only [get_session, hs, hexpb, if_true]
    simp only [UserSession.fresh]
    exact lookupKey_insertKey_self _ _ _

/-- A session that loaded content and then went idle at time 0. -/
def staleSession : UserSession :=
  { video_id := some "v", transcript := some "t", summary := some "s",
    language := "Spanish", history := [("user", "q")], created_at := 0,
    last_active := 0 }

/-- A session store holding only `staleSession` under chat id 0. -/
def staleSessions : SessionStore := [(0, staleSession)]

/-- Witness for C7 at `now = 7201`, one second past the 2-hour session TTL. -/
theorem claim_C7_session_ttl_witness :
    (lookupKey staleSessions 0 = some staleSession ∧
     staleSession.last_active + SESSION_TTL_SECONDS < 7201) ∧
    (has_video staleSessions 7201 0 = false ∧
     (get_session staleSessions 7201 0).1
       = { video_id := none, transcript := none, summary := none,
           language := "English", history := [], created_at := 7201,
           last_active := 7201 } ∧
     lookupKey (get_session staleSessions 7201 0).2 0
       = some { video_id := none, transcript := none, summary := none,
                language := "English", history := [], created_at := 7201,
                last_active := 7201 }) :=
  ⟨⟨by decide, by decide⟩,
   claim_C7_session_ttl staleSessions 7201 0 staleSession (by decide)
     (by decide)⟩

/-! ## Claim C9 -/

/-- C9 as frozen is false on the code: `clear_session` checks only key
presence, never expiry, so an expired session is reset in place — keeping
its `language` (here `"Spanish"`) and `created_at` — instead of being
replaced by a fresh default session as the claim requires for the expired
case. -/
theorem claim_C9_counterexample :
    UserSession.is_expired staleSession 7201 = true ∧
    lookupKey (clear_session staleSessions 7201 0) 0
      = some { video_id := none, transcript := none, summary := none,
               language := "Spanish", history := [], created_at := 0,
               last_active := 7201 } ∧
    ({ video_id := none, transcript := none, summary := none,
       language := "Spanish", history := [], created_at := 0,
       last_active := 7201 } : UserSession) ≠ UserSession.fresh 7201 := by
  refine ⟨by decide, by decide, by decide⟩

/-- C9 (amended) — `clear_session` resets in place whenever any session is
stored for the identifier, expired or not, clearing the content fields and
history and refreshing `last_active` while keeping `language` and
`created_at`; only when no session is stored at all does it create a fresh
default session. -/
theorem claim_C9_reset_semantics (ss : SessionStore) (now : Nat)
    (chat_id : Int) :
    (∀ s : UserSession, lookupKey ss chat_id = some s →
      lookupKey (clear_session ss now chat_id) chat_id
        = some { s with
            video_id := none, transcript := none, summary := none,
            history := [], last_active := now }) ∧
    (lookupKey ss chat_id = none →
      lookupKey (clear_session ss now chat_id) chat_id
        = some (UserSession.fresh now)) := by
  constructor
  · intro s hs
    simp only [clear_session, hs, UserSession.reset]
    exact lookupKey_insertKey_self _ _ _
  · intro hs
    simp only [clear_session, hs]
    exact lookupKey_insertKey_self _ _ _

/-- Witness for the amended C9: in-place reset of a stored (expired) session
with a non-default language, and fresh-session creation on an empty store. -/
theorem claim_C9_reset_semantics_witness :
    (lookupKey staleSessions 0 = some staleSession ∧
     lookupKey (clear_session staleSessions 7201 0) 0
       = some { staleSession with
           video_id := none, transcript := none, summary := none,
           history := [], last_active := 7201 }) ∧
    (lookupKey ([] : SessionStore) 0 = none ∧
     lookupKey (clear_session [] 7201 0) 0
       = some (UserSession.fresh 7201)) :=
  ⟨⟨by decide,
    (claim_C9_reset_semantics staleSessions 7201 0).1 staleSession
      (by decide)⟩,
   ⟨by decide, (claim_C9_reset_semantics ([] : SessionStore) 7201 0).2
      (by decide)⟩⟩

/-! ## Claim C8 -/

/-- The most recent `n` elements of a list, in order (`l[-n:]` in Python). -/
def lastN {α : Type} (n : Nat) (l : List α) : List α :=
  l.drop (l.length - n)

theorem lastN_eq_reverse_take {α : Type} (n : Nat) (l : List α) :
    lastN n l = (l.reverse.take n).reverse := by
  apply List.reverse_injective
  rw [List.reverse_reverse, lastN, List.reverse_drop]
  rcases Nat.le_total n l.length with h | h
  · rw [Nat.sub_sub_self h]
  · rw [Nat.sub_eq_zero_of_le h, Nat.sub_zero]
    rw [List.take_of_length_le (by simp),
      List.take_of_length_le (by simpa using h)]

theorem take_append_take {α : Type} (n : Nat) (a b : List α) :
    (a ++ b.take n).take n = (a ++ b).take n := by
  rw [List.take_append_eq_append_take, List.take_append_eq_append_take,
    List.take_take]
  congr 1
  rw [min_eq_left (Nat.sub_le n a.length)]

theorem lastN_append_lastN {α : Type} (n : Nat) (x y : List α) :
    lastN n (lastN n x ++ y) = lastN n (x ++ y) := by
  rw [lastN_eq_reverse_take n x,
    lastN_eq_reverse_take n ((x.reverse.take n).reverse ++ y),
    lastN_eq_reverse_take n (x ++ y)]
  rw [List.reverse_append, List.reverse_reverse, List.reverse_append]
  rw [take_append_take]

theorem lastN_append_of_le {α : Type} (n : Nat) (a b : List α)
    (h : n ≤ b.length) : lastN n (a ++ b) = lastN n b := by
  rw [lastN, lastN, List.length_append]
  have h2 : a.length + b.length - n = a.length + (b.length - n) := by omega
  rw [h2, List.drop_append]

/-- Python `add_history` always leaves the history equal to the most recent
`MAX_HISTORY_MESSAGES` elements of the old history with the new message
appended. -/
theorem add_history_history (s : UserSession) (r c : String) :
    (s.add_history r c).history
      = lastN MAX_HISTORY_MESSAGES (s.history ++ [(r, c)]) := by
  simp only [UserSession.add_history]
  by_cases h : MAX_HISTORY_MESSAGES < (s.history ++ [(r, c)]).length
  · rw [if_pos h, lastN]
  · rw [if_neg h, lastN, Nat.sub_eq_zero_of_le (Nat.le_of_not_lt h),
      List.drop_zero]

theorem add_history_length_le (s : UserSession) (r c : String) :
    (s.add_history r c).history.length ≤ MAX_HISTORY_MESSAGES := by
  rw [add_history_history, lastN, List.length_drop]
  omega

/-- Folding `add_history` over a message list: as long as the starting
history is within the bound, the final history is the most recent
`MAX_HISTORY_MESSAGES` elements of old history plus appended messages. -/
theorem foldl_add_history (msgs : List (String × String)) :
    ∀ s : UserSession, s.history.length ≤ MAX_HISTORY_MESSAGES →
      (msgs.foldl (fun st m => st.add_history m.1 m.2) s).history
        = lastN MAX_HISTORY_MESSAGES (s.history ++ msgs) := by
  induction msgs with
  | nil =>
    intro s h
    rw [List.foldl_nil, List.append_nil, lastN,
      Nat.sub_eq_zero_of_le h, List.drop_zero]
  | cons m rest ih =>
    intro s h
    rw [List.foldl_cons, ih _ (add_history_length_le s m.1 m.2),
      add_history_history, lastN_append_lastN, List.append_assoc]
    rfl

/-- C8 — History bound: after more than 20 `add_history` calls the history
has length exactly 20 and consists of exactly the 20 most recently appended
`(role, content)` pairs in append order (the older ones dropped from the
front) — whatever history the session started with (first two conjuncts);
and the store-level `append_history` delegates to `add_history` on the
session `get_session` yields (third conjunct). -/
theorem claim_C8_history_bound (s : UserSession)
    (msgs : List (String × String))
    (h : MAX_HISTORY_MESSAGES < msgs.length) :
    (msgs.foldl (fun st m => st.add_history m.1 m.2) s).history
      = msgs.drop (msgs.length - MAX_HISTORY_MESSAGES) ∧
    (msgs.foldl (fun st m => st.add_history m.1 m.2) s).history.length
      = MAX_HISTORY_MESSAGES ∧
    ∀ (ss : SessionStore) (now : Nat) (chat_id : Int) (r c : String),
      lookupKey (append_history ss now chat_id r c) chat_id
        = some ((get_session ss now chat_id).1.add_history r c) := by
  have hmain : (msgs.foldl (fun st m => st.add_history m.1 m.2) s).history
      = msgs.drop (msgs.length - MAX_HISTORY_MESSAGES) := by
    cases msgs with
    | nil => simp at h
    | cons m rest =>
      rw [List.foldl_cons, foldl_add_history rest _
        (add_history_length_le s m.1 m.2), add_history_history,
        lastN_append_lastN, List.append_assoc]
      have hr : ([(m.1, m.2)] ++ rest : List (String × String))
          = m :: rest := by
        rw [List.singleton_append, Prod.mk.eta]
      rw [hr, lastN_append_of_le _ _ _ (Nat.le_of_lt h), lastN]
  refine ⟨hmain, ?_, ?_⟩
  · rw [hmain, List.length_drop]
    have := Nat.le_of_lt h
    omega
  · intro ss now chat_id r c
    simp only [append_history]
    exact lookupKey_insertKey_self _ _ _

/-- Twenty-one identical turns, enough to overflow the 20-message bound. -/
def manyMsgs : List (String × String) := List.replicate 21 ("user", "m")

/-- Witness for C8: 21 appends onto a fresh session leave exactly the last
20 messages. -/
theorem claim_C8_history_bound_witness :
    MAX_HISTORY_MESSAGES < manyMsgs.length ∧
    ((manyMsgs.foldl (fun st m => st.add_history m.1 m.2)
        (UserSession.fresh 0)).history
      = manyMsgs.drop (manyMsgs.length - MAX_HISTORY_MESSAGES) ∧
     (manyMsgs.foldl (fun st m => st.add_history m.1 m.2)
        (UserSession.fresh 0)).history.length = MAX_HISTORY_MESSAGES ∧
     ∀ (ss : SessionStore) (now : Nat) (chat_id : Int) (r c : String),
       lookupKey (append_history ss now chat_id r c) chat_id
         = some ((get_session ss now chat_id).1.add_history r c)) :=
  ⟨by decide,
   claim_C8_history_bound (UserSession.fresh 0) manyMsgs (by decide)⟩

end BotCore
